import Mathlib

/-!
Verification of the content ingestion and normalization pipeline of the
lex-prototype editor: the list marker cleanup pass
(src/utils/list-normalization.ts), the heading rank policy
(src/constants/heading-policy.ts and the HeadingPolicyPlugin transform),
the markup sanitization boundary (the DOMPurify configuration and hooks in
src/config/sanitization-config.ts), and the multi-path paste dispatcher
(src/plugins/SmartPastePlugin.tsx).

Strings from the program are embedded as `List Char`.  Machine behavior of the
host engine (Lexical) and of the DOM is made explicit where the program
depends on it.
-/

namespace LexProto

/-! ### Character classes

`isJsSpace` embeds the character class matched by the JavaScript regex
escape `\s` (and by `String.prototype.trim`): ASCII whitespace, NBSP, and
the Unicode space separators. -/

def isJsSpace (c : Char) : Bool :=
  c.toNat = 32 || c.toNat = 9 || c.toNat = 10 || c.toNat = 11 || c.toNat = 12 ||
  c.toNat = 13 || c.toNat = 160 || c.toNat = 0x1680 ||
  (0x2000 ≤ c.toNat && c.toNat ≤ 0x200A) ||
  c.toNat = 0x2028 || c.toNat = 0x2029 || c.toNat = 0x202F ||
  c.toNat = 0x205F || c.toNat = 0x3000 || c.toNat = 0xFEFF

/-- The regex class `\d` (ASCII digits). -/
def isAsciiDigit (c : Char) : Bool :=
  48 ≤ c.toNat && c.toNat ≤ 57

/-- The regex class `[a-zA-Z]` (ASCII letters). -/
def isAsciiLetter (c : Char) : Bool :=
  (65 ≤ c.toNat && c.toNat ≤ 90) || (97 ≤ c.toNat && c.toNat ≤ 122)

/-! ### src/utils/list-normalization.ts -/

/-- Source `normalizeNBSP`: `text.replace(/ /g, ' ')` — every U+00A0 becomes an
ordinary space. -/
def normalizeNBSP (s : List Char) : List Char :=
  s.map fun c => if c.toNat = 160 then ' ' else c

/-- The bullet character class `[-*•◦▪–—]` of `BULLET_PREFIXES.unordered`. -/
def isBulletChar (c : Char) : Bool :=
  c = '-' || c = '*' || c = '•' || c = '◦' || c = '▪' || c = '–' || c = '—'

/-- Matching of the marker group `([-*•◦▪–—]|\d+[.)]|[a-zA-Z][.)])` of
`BULLET_PREFIXES.combined` at the start of the string.  On success, returns
the remainder of the string after the marker.  The three alternatives have
disjoint first characters, and `\d+` is greedy (fewer digits would leave a
digit where `[.)]` is required), so this deterministic matcher agrees with
the backtracking regex engine. -/
def matchMarker : List Char → Option (List Char)
  | [] => none
  | c :: rest =>
    if isBulletChar c then some rest
    else if isAsciiDigit c then
      match rest.dropWhile isAsciiDigit with
      | p :: r2 => if p = '.' || p = ')' then some r2 else none
      | [] => none
    else if isAsciiLetter c then
      match rest with
      | p :: r2 => if p = '.' || p = ')' then some r2 else none
      | [] => none
    else none

/-- Matching of the whole anchored pattern
`/^([-*•◦▪–—]|\d+[.)]|[a-zA-Z][.)])\s+/`: the marker group followed by at
least one whitespace character, consuming the whole greedy `\s+` run.  On
success, returns the string with the matched prefix removed. -/
def matchCombined (s : List Char) : Option (List Char) :=
  match matchMarker s with
  | none => none
  | some r =>
    match r with
    | c :: _ => if isJsSpace c then some (r.dropWhile isJsSpace) else none
    | [] => none

/-- Source `normalized.replace(BULLET_PREFIXES.combined, '')`: the combined pattern
is anchored and the regex is not global, so at most one leading match is
removed. -/
def replaceCombinedOnce (s : List Char) : List Char :=
  (matchCombined s).getD s

/-- Source `stripListPrefix`: normalizes NBSP first, then removes at most one
leading marker. -/
def stripListPrefix (s : List Char) : List Char :=
  replaceCombinedOnce (normalizeNBSP s)

/-- A string is one of the marker alternatives of the combined pattern. -/
inductive IsMarker : List Char → Prop
  | bullet {c : Char} : isBulletChar c = true → IsMarker [c]
  | ordNum {ds : List Char} {p : Char} : ds ≠ [] →
      (∀ c ∈ ds, isAsciiDigit c = true) → (p = '.' ∨ p = ')') →
      IsMarker (ds ++ [p])
  | ordAlpha {c p : Char} : isAsciiLetter c = true → (p = '.' ∨ p = ')') →
      IsMarker [c, p]

/-! ### src/constants/heading-policy.ts -/

def ALLOWED_HEADING_TAGS : List String := ["h1", "h2", "h3"]

def ALL_HEADING_TAGS : List String := ["h1", "h2", "h3", "h4", "h5", "h6"]

def DISALLOWED_HEADING_TAGS : List String := ["h4", "h5", "h6"]

def isAllowedHeadingTag (tag : String) : Bool :=
  ALLOWED_HEADING_TAGS.contains tag

def shouldNormalizeHeadingTag (tag : String) : Bool :=
  DISALLOWED_HEADING_TAGS.contains tag

/-- The rank denoted by a heading tag (`h1` = 1, …, `h6` = 6). -/
def headingRank (tag : String) : Nat :=
  if tag = "h1" then 1 else if tag = "h2" then 2 else if tag = "h3" then 3
  else if tag = "h4" then 4 else if tag = "h5" then 5
  else if tag = "h6" then 6 else 0

/-! ### HeadingPolicyPlugin (the heading node transform)

The transform registered with `editor.registerNodeTransform(HeadingNode, …)`:
guard on `editor.isEditable()`, early return for allowed tags, otherwise a
replacement `h3` node is created, `format` / `indent` / `direction` are
copied, the children are moved over in order, and the replacement is swapped
into the tree at the original position. -/

/-- Text direction of a node (`getDirection`): `ltr`, `rtl` or `null`. -/
inductive Direction
  | ltr
  | rtl
deriving DecidableEq, Repr

/-- An inline child of a heading (a text run with a format bitmask).  The
transform moves these verbatim, so their internal structure is irrelevant
beyond equality. -/
structure InlineNode where
  text : String
  format : Nat
deriving DecidableEq, Repr

/-- The observable state of a heading node used by the transform. -/
structure HeadingState where
  tag : String
  format : Nat
  indent : Nat
  direction : Option Direction
  children : List InlineNode
deriving DecidableEq, Repr

/-- One invocation of the HeadingPolicyPlugin transform on a heading node.
`none` means the transform returned without touching the tree (no state
transition, no node allocation); `some n` means the node was replaced by the
freshly created node `n` at the same position. -/
def headingTransformStep (editable : Bool) (node : HeadingState) :
    Option HeadingState :=
  if editable = false then none
  else if shouldNormalizeHeadingTag node.tag = false then none
  else some { tag := "h3", format := node.format, indent := node.indent,
              direction := node.direction, children := node.children }

/-- The heading resulting from one transform invocation (the original node
when the transform was a no-op). -/
def applyHeadingTransform (editable : Bool) (node : HeadingState) :
    HeadingState :=
  (headingTransformStep editable node).getD node

/-- A top-level block of the document tree.  The transform is registered for
heading nodes only; every other block is opaque to it. -/
inductive BlockNode
  | heading (h : HeadingState)
  | other (payload : String)
deriving DecidableEq, Repr

/-- One settle cycle of the host engine: the registered transform runs once
on every heading node of the tree, replacing each in place. -/
def settleHeadings (editable : Bool) (doc : List BlockNode) : List BlockNode :=
  doc.map fun b =>
    match b with
    | .heading h => .heading (applyHeadingTransform editable h)
    | .other p => .other p

/-! ### src/config/sanitization-config.ts (the markup sanitizer)

The repository configures DOMPurify with a strict allowlist and two hooks
and exposes `sanitizeHTML`.  DOMPurify itself and the browser's HTML
parser/serializer are external collaborators; the markup fragment is
therefore embedded as a node tree (the result of parsing), and the
sanitizer is a tree transform followed by serialization. -/

def ALLOWED_TAGS : List String :=
  ["p", "h1", "h2", "h3", "h4", "h5", "h6", "ul", "ol", "li", "blockquote",
   "pre", "hr", "strong", "em", "code", "a", "br"]

def ALLOWED_ATTR : List String := ["href", "title", "target", "rel"]

def FORBID_TAGS : List String :=
  ["script", "object", "embed", "iframe", "form", "input", "textarea",
   "select", "svg", "math", "style", "link", "meta", "title", "head",
   "body", "html", "applet", "bgsound", "base", "basefont", "frame",
   "frameset", "noframes"]

/-- A parsed markup fragment node: a text run or an element with a tag,
attributes (name/value pairs) and children. -/
inductive Html
  | text (s : List Char)
  | elem (tag : String) (attrs : List (String × List Char)) (children : List Html)

def lowerChars (l : List Char) : List Char := l.map Char.toLower

/-- Embedding of `String.prototype.trim()`. -/
def trimChars (l : List Char) : List Char :=
  ((l.dropWhile isJsSpace).reverse.dropWhile isJsSpace).reverse

def startsWithStr (pre : String) (l : List Char) : Bool :=
  pre.toList.isPrefixOf l

/-- The `uponSanitizeAttribute` hook's gate for `href` values: block
`javascript:` / `data:` / `vbscript:` outright, and block any other
scheme-qualified value whose scheme is not on `ALLOWED_SCHEMES` unless the
value is relative. -/
def hookHrefAllowed (v : List Char) : Bool :=
  let url := lowerChars (trimChars v)
  if startsWithStr "javascript:" url || startsWithStr "data:" url ||
     startsWithStr "vbscript:" url then false
  else
    let hasAllowedScheme := startsWithStr "http:" url ||
      startsWithStr "https:" url || startsWithStr "mailto:" url
    let isRelativeUrl := startsWithStr "/" url || startsWithStr "./" url ||
      startsWithStr "../" url || startsWithStr "#" url
    !(url.contains ':' && !hasAllowedScheme && !isRelativeUrl)

/-- The characters DOMPurify strips from a URI before testing it against
`ALLOWED_URI_REGEXP` (its `ATTR_WHITESPACE` class). -/
def isAttrWs (c : Char) : Bool :=
  c.toNat ≤ 0x20 || c.toNat = 0xA0 || c.toNat = 0x1680 || c.toNat = 0x180E ||
  (0x2000 ≤ c.toNat && c.toNat ≤ 0x2029) || c.toNat = 0x205F ||
  c.toNat = 0x3000

/-- The configured `ALLOWED_URI_REGEXP = /^(?:https?:|mailto:|#)/i`, applied
by DOMPurify to the whitespace-stripped value. -/
def uriRegexpPass (v : List Char) : Bool :=
  let u := lowerChars (v.filter fun c => !isAttrWs c)
  startsWithStr "http:" u || startsWithStr "https:" u ||
  startsWithStr "mailto:" u || startsWithStr "#" u

/-- An `href` value survives iff it passes both the hook's gate and the
configured URI regexp. -/
def keepHref (v : List Char) : Bool :=
  hookHrefAllowed v && uriRegexpPass v

/-- Attribute filtering for one element: only names on `ALLOWED_ATTR`
survive (`FORBID_ATTR` names and everything else are dropped), and `href`
additionally passes the URL gate. -/
def sanitizeAttrs (attrs : List (String × List Char)) :
    List (String × List Char) :=
  attrs.filterMap fun a =>
    if !(ALLOWED_ATTR.contains a.1) then none
    else if a.1 = "href" then (if keepHref a.2 then some a else none)
    else some a

/-- The value the `afterSanitizeAttributes` hook forces onto `rel`. -/
def FORCED_REL : List Char := "noopener noreferrer ugc".toList

/-- Model of `setAttribute` on the attribute list.  (A DOM `setAttribute`
updates an existing attribute in place; the model removes it and appends,
which preserves the attribute multiset.) -/
def setAttrModel (attrs : List (String × List Char)) (n : String)
    (v : List Char) : List (String × List Char) :=
  (attrs.filter fun a => a.1 ≠ n) ++ [(n, v)]

/-- The `afterSanitizeAttributes` hook: every anchor gets
`rel="noopener noreferrer ugc"` and `target="_blank"` (overwriting any
existing value) and loses the residual dangerous attributes; every element
loses `data-*` and `on*` attributes. -/
def afterHookAttrs (tag : String) (attrs : List (String × List Char)) :
    List (String × List Char) :=
  (if tag = "a" then
    (setAttrModel (setAttrModel attrs "rel" FORCED_REL)
        "target" "_blank".toList).filter fun a =>
      !(["onclick", "onmouseover", "style", "class", "id"].contains a.1)
  else attrs).filter fun a =>
    !(startsWithStr "data-" a.1.toList || startsWithStr "on" a.1.toList)

mutual

/-- Modelled from the spec: DOMPurify's DOM traversal is not part of the
repository.  Per §4.1, elements on the allowlist are kept with their
attributes run through the configured attribute rules and both registered
hooks; disallowed tags (all of `FORBID_TAGS`, and anything else off
`ALLOWED_TAGS`) are removed along with their entire subtree, not merely
unwrapped. -/
def sanitizeNode : Html → List Html
  | .text s => [.text s]
  | .elem tag attrs children =>
    if ALLOWED_TAGS.contains tag then
      [.elem tag (afterHookAttrs tag (sanitizeAttrs attrs))
        (sanitizeList children)]
    else []

def sanitizeList : List Html → List Html
  | [] => []
  | h :: t => sanitizeNode h ++ sanitizeList t

end

/-- HTML text escaping used when the sanitized DOM is serialized back to a
string (`RETURN_DOM: false`).  The model escapes `&`, `<`, `>` and `"` in
both text and attribute values. -/
def escapeChar (c : Char) : List Char :=
  if c = '&' then "&amp;".toList
  else if c = '<' then "&lt;".toList
  else if c = '>' then "&gt;".toList
  else if c = '"' then "&quot;".toList
  else [c]

def escapeChars (l : List Char) : List Char := l.flatMap escapeChar

/-- Tags serialized without children or a closing tag. -/
def VOID_TAGS : List String := ["br", "hr"]

def serializeAttrsM (attrs : List (String × List Char)) : List Char :=
  attrs.flatMap fun a =>
    [' '] ++ a.1.toList ++ ['='] ++ ['"'] ++ escapeChars a.2 ++ ['"']

mutual

/-- Serialization of a sanitized fragment back to markup text. -/
def serializeNode : Html → List Char
  | .text s => escapeChars s
  | .elem tag attrs children =>
    if VOID_TAGS.contains tag then
      ['<'] ++ tag.toList ++ serializeAttrsM attrs ++ ['>']
    else
      ['<'] ++ tag.toList ++ serializeAttrsM attrs ++ ['>'] ++
        serializeHtmlList children ++ ['<', '/'] ++ tag.toList ++ ['>']

def serializeHtmlList : List Html → List Char
  | [] => []
  | h :: t => serializeNode h ++ serializeHtmlList t

end

/-- Source `sanitizeHTML` on a parsed fragment: sanitize the node forest and
serialize the result. -/
def sanitizeHTML (fragment : List Html) : List Char :=
  serializeHtmlList (sanitizeList fragment)

/-- Attribute lookup (first occurrence, as `Element.getAttribute`). -/
def lookupAttr (attrs : List (String × List Char)) (n : String) :
    Option (List Char) :=
  (attrs.find? fun a => a.1 == n).map fun a => a.2

mutual

/-- Every anchor element in the tree carries the forced safe cross-origin
annotations. -/
def anchorsForced : Html → Bool
  | .text _ => true
  | .elem tag attrs children =>
    (if tag = "a" then
      lookupAttr attrs "rel" == some FORCED_REL &&
      lookupAttr attrs "target" == some "_blank".toList
     else true) && anchorsForcedList children

def anchorsForcedList : List Html → Bool
  | [] => true
  | h :: t => anchorsForced h && anchorsForcedList t

end

mutual

/-- Well-formedness of a sanitizer output tree: all tags on `ALLOWED_TAGS`
and all attribute names on `ALLOWED_ATTR`. -/
def outputWf : Html → Bool
  | .text _ => true
  | .elem tag attrs children =>
    ALLOWED_TAGS.contains tag &&
    (attrs.all fun a => ALLOWED_ATTR.contains a.1) && outputWfList children

def outputWfList : List Html → Bool
  | [] => true
  | h :: t => outputWf h && outputWfList t

end

/-- The character list "script". -/
def scriptChars : List Char := "script".toList

/-- No occurrence of `<` in `l` can begin a `script` tag: for every split of
`l` at a `<`, the remainder neither extends to `script` nor is a fragment of
it.  This is preserved under appending on the right, which is what makes it
compositional over serialization. -/
def SafeLt (l : List Char) : Prop :=
  ∀ l₁ l₂, l = l₁ ++ '<' :: l₂ → ¬ scriptChars <+: l₂ ∧ ¬ l₂ <+: scriptChars

/-! ### src/plugins/SmartPastePlugin.tsx (the paste dispatcher)

`handleSmartPaste` and its helpers are synchronous control flow around host
engine primitives (`editor.update`, `$generateNodesFromSerializedNodes`,
`$generateNodesFromDOM`, selection queries, `DOMParser`, `performance.now`).
The host primitives are abstracted into a `HostEngine` record; the
dispatcher's own decisions — path choice, guards, transaction boundaries,
and the erroneous reference to the out-of-scope `clipboardData` identifier
in `handleHtmlPaste` — are modelled statement by statement. -/

/-- Source constant `MAX_PASTE_SIZE = 500 * 1024` bytes. -/
def MAX_PASTE_SIZE : Nat := 500 * 1024

/-- Source constant `MAX_SANITIZATION_TIME_MS = 150`. -/
def MAX_SANITIZATION_TIME_MS : Nat := 150

/-- UTF-8 byte count of one character (`Blob` encodes a DOMString as
UTF-8). -/
def charUtf8Bytes (c : Char) : Nat :=
  if c.toNat < 0x80 then 1
  else if c.toNat < 0x800 then 2
  else if c.toNat < 0x10000 then 3
  else 4

/-- Byte size of `new Blob([htmlContent], ...)`. -/
def blobSize (l : List Char) : Nat := (l.map charUtf8Bytes).sum

/-- Source `exceedsSizeLimit`: the blob size is strictly greater than
`MAX_PASTE_SIZE`. -/
def exceedsSizeLimit (htmlContent : List Char) : Bool :=
  decide (MAX_PASTE_SIZE < blobSize htmlContent)

/-- Truthiness of `s && s.trim()` for a string: some non-whitespace
character present. -/
def hasContent (l : List Char) : Bool := l.any fun c => !isJsSpace c

/-- A JSON value, the result of `JSON.parse` on the native clipboard
payload. -/
inductive Json
  | null
  | bool (b : Bool)
  | num (n : Int)
  | str (s : String)
  | arr (xs : List Json)
  | obj (fields : List (String × Json))

/-- Property access `j.k` on a parsed value: `some` for an object field,
`none` (JavaScript `undefined`) otherwise. -/
def jsonGet (j : Json) (k : String) : Option Json :=
  match j with
  | .obj fs => (fs.find? fun f => f.1 == k).map fun f => f.2
  | _ => none

/-- JavaScript truthiness of a JSON value (with `none` = `undefined`
falsy). -/
def jsonTruthy : Option Json → Bool
  | none => false
  | some .null => false
  | some (.bool b) => b
  | some (.num n) => n != 0
  | some (.str s) => s ≠ ""
  | some (.arr _) => true
  | some (.obj _) => true

def jsonIsArr : Json → Bool
  | .arr _ => true
  | _ => false

/-- Truthiness of `x.root && x.root.children`, and the value of
`x.root.children` when truthy. -/
def rootChildren (j : Json) : Option Json :=
  match jsonGet j "root" with
  | some r => if jsonTruthy (some r) then
      match jsonGet r "children" with
      | some c => if jsonTruthy (some c) then some c else none
      | none => none
    else none
  | none => none

/-- The probe chain of `handleLexicalFastPath` assigning `serializedNodes`
(initialized to `[]`).  The `editorState` probe accepts an object payload
with `root.children`; a string-valued `editorState` requires a nested
`JSON.parse`, which is modelled as yielding no nodes (its failure branch). -/
def probeSerializedNodes (p : Json) : Json :=
  match rootChildren p with
  | some c => c
  | none =>
    if jsonTruthy (jsonGet p "nodes") then (jsonGet p "nodes").getD .null
    else if jsonIsArr p then p
    else if jsonTruthy (jsonGet p "clipboard") then
      let cd := (jsonGet p "clipboard").getD .null
      match rootChildren cd with
      | some c => c
      | none => if jsonIsArr cd then cd else Json.arr []
    else if jsonTruthy (jsonGet p "editorState") then
      match (jsonGet p "editorState").getD .null with
      | .obj fs =>
        match rootChildren (.obj fs) with
        | some c => c
        | none => Json.arr []
      | _ => Json.arr []
    else Json.arr []

/-- Embedding of `serializedNodes.length === 0` under JavaScript semantics: `length` is
the element count for arrays and the character count for strings, and
`undefined` (hence `!== 0`) for every other value. -/
def jsLengthIsZero : Json → Bool
  | .arr xs => xs.isEmpty
  | .str s => s == ""
  | _ => false

/-- The state of the `application/x-lexical-editor` clipboard slot:
`absent` when `getData` returned an empty or all-whitespace string,
`invalidJson` when `JSON.parse` threw, `parsed j` otherwise. -/
inductive LexSlot
  | absent
  | invalidJson
  | parsed (j : Json)

/-- One paste event as seen by the dispatcher. -/
structure PasteEvent where
  hasClipboard : Bool
  lex : LexSlot
  html : List Char
  plain : List Char

/-- The host engine primitives the dispatcher calls.  The node generators
return `none` when they throw and `some n` for `n` generated nodes; the
sanitizer composed with the DOM round trip is `sanitizeResult`;
`sanitizeMs` is the wall-clock measurement around the sanitizer call;
`stripHtml` is `DOMParser` + `textContent` used by the plaintext fallback. -/
structure HostEngine where
  editable : Bool
  hasSelection : Bool
  genFromSerialized : Json → Option Nat
  genFromDOM : List Char → Option Nat
  sanitizeResult : List Char → List Char
  sanitizeMs : Nat
  stripHtml : List Char → List Char

/-- The observable outcome of one dispatcher invocation: the returned
boolean, how many `editor.update` transactions were opened, how many of
them inserted content, how many times the sanitizer ran, and whether an
exception escaped to `handleSmartPaste`'s catch-all. -/
structure PasteTrace where
  handled : Bool
  updates : Nat
  inserts : Nat
  sanitizerRuns : Nat
  threw : Bool
deriving DecidableEq, Repr

/-- Source `handleLexicalFastPath`: probe the payload; with no extracted nodes
return `false` before opening any transaction; otherwise open the single
`editor.update`, require a range selection, generate nodes (a generator
exception is caught inside the update), and insert. -/
def handleLexicalFastPathM (eng : HostEngine) (j : Json) : PasteTrace :=
  if jsLengthIsZero (probeSerializedNodes j) then
    { handled := false, updates := 0, inserts := 0, sanitizerRuns := 0,
      threw := false }
  else if eng.hasSelection = false then
    { handled := false, updates := 1, inserts := 0, sanitizerRuns := 0,
      threw := false }
  else
    match eng.genFromSerialized (probeSerializedNodes j) with
    | none =>
      { handled := false, updates := 1, inserts := 0, sanitizerRuns := 0,
        threw := false }
    | some 0 =>
      { handled := false, updates := 1, inserts := 0, sanitizerRuns := 0,
        threw := false }
    | some (_ + 1) =>
      { handled := true, updates := 1, inserts := 1, sanitizerRuns := 0,
        threw := false }

/-- Source `handlePlaintextFallback`: prefer `text/plain`, else strip the markup;
insert the text in one `editor.update`.  In the source this function is
reachable only through the two call sites in `handleHtmlPaste`, both of
which pass the out-of-scope identifier `clipboardData` and therefore throw
before the call is entered. -/
def handlePlaintextFallbackM (eng : HostEngine) (html plain : List Char) :
    PasteTrace :=
  if hasContent
      (if hasContent plain then plain else eng.stripHtml html) = false then
    { handled := false, updates := 0, inserts := 0, sanitizerRuns := 0,
      threw := false }
  else if eng.hasSelection = false then
    { handled := false, updates := 1, inserts := 0, sanitizerRuns := 0,
      threw := false }
  else
    { handled := true, updates := 1, inserts := 1, sanitizerRuns := 0,
      threw := false }

/-- Source `handleHtmlPaste`: the size guard fires before the sanitizer, but its
fallback call `handlePlaintextFallback(editor, htmlContent, clipboardData)`
evaluates the identifier `clipboardData`, which is not in scope in this
function — a `ReferenceError` is raised instead (`threw := true`), caught
only by `handleSmartPaste`'s catch-all.  The time guard's fallback call has
the same fault.  Otherwise the sanitized markup is validated and inserted
inside the single `editor.update`. -/
def handleHtmlPasteM (eng : HostEngine) (htmlContent : List Char) :
    PasteTrace :=
  if exceedsSizeLimit htmlContent then
    { handled := false, updates := 0, inserts := 0, sanitizerRuns := 0,
      threw := true }
  else
    if MAX_SANITIZATION_TIME_MS < eng.sanitizeMs then
      { handled := false, updates := 0, inserts := 0, sanitizerRuns := 1,
        threw := true }
    else if hasContent (eng.sanitizeResult htmlContent) = false then
      { handled := false, updates := 0, inserts := 0, sanitizerRuns := 1,
        threw := false }
    else if eng.hasSelection = false then
      { handled := false, updates := 1, inserts := 0, sanitizerRuns := 1,
        threw := false }
    else
      match eng.genFromDOM (eng.sanitizeResult htmlContent) with
      | none =>
        { handled := false, updates := 1, inserts := 0, sanitizerRuns := 1,
          threw := false }
      | some 0 =>
        { handled := false, updates := 1, inserts := 0, sanitizerRuns := 1,
          threw := false }
      | some (_ + 1) =>
        { handled := true, updates := 1, inserts := 1, sanitizerRuns := 1,
          threw := false }

/-- Source `handleSmartPaste`: editability and clipboard guards, then the
priority chain.  A payload that parses as JSON is handed to the fast path
and that result is returned directly — including `false` when no nodes
could be extracted; only a payload that fails `JSON.parse` falls through to
the HTML path.  With no usable markup the handler returns `false` for the
host's default text paste. -/
def handleSmartPasteM (eng : HostEngine) (evt : PasteEvent) : PasteTrace :=
  if eng.editable = false then
    { handled := false, updates := 0, inserts := 0, sanitizerRuns := 0,
      threw := false }
  else if evt.hasClipboard = false then
    { handled := false, updates := 0, inserts := 0, sanitizerRuns := 0,
      threw := false }
  else
    match evt.lex with
    | .parsed j => handleLexicalFastPathM eng j
    | _ =>
      if hasContent evt.html then handleHtmlPasteM eng evt.html
      else
        { handled := false, updates := 0, inserts := 0, sanitizerRuns := 0,
          threw := false }

/-- Transactional discipline of one dispatcher outcome: at most one
`editor.update` transaction, insertion only inside a transaction, a
successful paste is exactly one inserting transaction, and a rejected paste
inserts nothing. -/
def GoodTrace (t : PasteTrace) : Prop :=
  t.updates ≤ 1 ∧ t.inserts ≤ t.updates ∧
  (t.handled = true → t.updates = 1 ∧ t.inserts = 1) ∧
  (t.handled = false → t.inserts = 0)

/-- A host engine in a nominal state: editable, with a range selection, and
with generators and sanitizer that succeed quickly. -/
def nominalEngine : HostEngine :=
  { editable := true, hasSelection := true,
    genFromSerialized := fun _ => some 1, genFromDOM := fun _ => some 1,
    sanitizeResult := fun l => l, sanitizeMs := 10, stripHtml := fun l => l }

/-- A paste event carrying only small markup. -/
def htmlOnlyEvent : PasteEvent :=
  { hasClipboard := true, lex := .absent, html := "<p>hi</p>".toList,
    plain := "hi".toList }

/-- A native payload that parses as well-formed JSON but matches none of
the probed container shapes. -/
def unknownShapePayload : Json := Json.obj [("foo", Json.num 1)]

/-- A paste event whose native slot holds `unknownShapePayload` alongside
usable markup. -/
def unknownShapeEvent : PasteEvent :=
  { hasClipboard := true, lex := .parsed unknownShapePayload,
    html := "<p>hi</p>".toList, plain := "hi".toList }

/-- An oversized markup paste: more than 500 KiB of `a`s, with a plain-text
alternative present. -/
def oversizedEvent : PasteEvent :=
  { hasClipboard := true, lex := .absent,
    html := List.replicate (MAX_PASTE_SIZE + 1) 'a', plain := "hi".toList }

/-- The malicious anchor of the spec's test vector,
`<a href="javascript:alert(1)">x</a>`, as a parsed fragment. -/
def jsAnchorFragment : List Html :=
  [Html.elem "a" [("href", "javascript:alert(1)".toList)]
    [Html.text "x".toList]]

end LexProto

namespace LexProto

/-! ## Helper lemmas -/

theorem normalizeNBSP_eq_self {l : List Char} (h : ∀ c ∈ l, c.toNat ≠ 160) :
    normalizeNBSP l = l := by
  induction l with
  | nil => rfl
  | cons c t ih =>
    have hc : c.toNat ≠ 160 := h c (by simp)
    have ht := ih fun c hm => h c (by simp [hm])
    simp [normalizeNBSP] at ht ⊢
    exact ⟨fun hc2 => absurd hc2 hc, ht⟩

theorem dropWhile_append_of_all {p : Char → Bool} {xs ys : List Char}
    (h : ∀ c ∈ xs, p c = true) :
    (xs ++ ys).dropWhile p = ys.dropWhile p := by
  induction xs with
  | nil => rfl
  | cons c t ih =>
    have hc : p c = true := h c (by simp)
    simp [List.dropWhile, hc]
    exact ih fun c hm => h c (by simp [hm])

theorem dropWhile_eq_self_of_head {p : Char → Bool} {l : List Char}
    (h : ∀ c, l.head? = some c → p c = false) : l.dropWhile p = l := by
  cases l with
  | nil => rfl
  | cons c t => simp [List.dropWhile, h c rfl]

theorem digit_not_bullet {c : Char} (h : isAsciiDigit c = true) :
    isBulletChar c = false := by
  by_contra hb
  have hb2 : isBulletChar c = true := by
    cases hcb : isBulletChar c with
    | true => rfl
    | false => exact absurd hcb hb
  simp only [isBulletChar, Bool.or_eq_true, decide_eq_true_eq] at hb2
  rcases hb2 with ((((((rfl | rfl) | rfl) | rfl) | rfl) | rfl) | rfl) <;>
    exact absurd h (by decide)

theorem letter_not_bullet {c : Char} (h : isAsciiLetter c = true) :
    isBulletChar c = false := by
  by_contra hb
  have hb2 : isBulletChar c = true := by
    cases hcb : isBulletChar c with
    | true => rfl
    | false => exact absurd hcb hb
  simp only [isBulletChar, Bool.or_eq_true, decide_eq_true_eq] at hb2
  rcases hb2 with ((((((rfl | rfl) | rfl) | rfl) | rfl) | rfl) | rfl) <;>
    exact absurd h (by decide)

theorem letter_not_digit {c : Char} (h : isAsciiLetter c = true) :
    isAsciiDigit c = false := by
  cases hq : isAsciiDigit c with
  | false => rfl
  | true =>
    exfalso
    simp only [isAsciiLetter, Bool.or_eq_true, Bool.and_eq_true,
      decide_eq_true_eq] at h
    simp only [isAsciiDigit, Bool.and_eq_true, decide_eq_true_eq] at hq
    omega

theorem matchMarker_append {m : List Char} (hm : IsMarker m)
    (r : List Char) : matchMarker (m ++ r) = some r := by
  cases hm with
  | bullet hc =>
    rename_i c
    simp [matchMarker, hc]
  | ordNum h0 hds hp =>
    rename_i ds p
    cases ds with
    | nil => exact absurd rfl h0
    | cons d ds' =>
      have hd : isAsciiDigit d = true := hds d (by simp)
      have hnotb : isBulletChar d = false := digit_not_bullet hd
      have hds' : ∀ c ∈ ds', isAsciiDigit c = true := fun c hm =>
        hds c (by simp [hm])
      have hpd : isAsciiDigit p = false := by
        rcases hp with rfl | rfl <;> decide
      have hdrop : (ds' ++ p :: r).dropWhile isAsciiDigit = p :: r := by
        rw [dropWhile_append_of_all hds']
        simp [List.dropWhile, hpd]
      have heq : (d :: ds') ++ [p] ++ r = d :: (ds' ++ p :: r) := by simp
      rw [heq]
      simp only [matchMarker, hnotb, hd, hdrop]
      simp [hp]
  | ordAlpha hc hp =>
    rename_i c p
    have h1 : isBulletChar c = false := letter_not_bullet hc
    have h2 : isAsciiDigit c = false := letter_not_digit hc
    simp only [List.cons_append, List.nil_append, matchMarker, h1, h2, hc]
    simp [hp]

theorem matchCombined_marker {m w r : List Char} (hm : IsMarker m)
    (hw : ∀ c ∈ w, isJsSpace c = true) (hw0 : w ≠ [])
    (hr : ∀ c, r.head? = some c → isJsSpace c = false) :
    matchCombined (m ++ w ++ r) = some r := by
  cases w with
  | nil => exact absurd rfl hw0
  | cons c0 w' =>
    have hc0 : isJsSpace c0 = true := hw c0 (by simp)
    have hw' : ∀ c ∈ w', isJsSpace c = true := fun c hmem =>
      hw c (by simp [hmem])
    have hstep : matchMarker (m ++ (c0 :: (w' ++ r))) =
        some (c0 :: (w' ++ r)) := matchMarker_append hm _
    have hdrop : (c0 :: (w' ++ r)).dropWhile isJsSpace = r := by
      have h1 : (c0 :: (w' ++ r)).dropWhile isJsSpace =
          (w' ++ r).dropWhile isJsSpace := by
        simp [List.dropWhile, hc0]
      rw [h1, dropWhile_append_of_all hw']
      exact dropWhile_eq_self_of_head hr
    have heq : m ++ (c0 :: w') ++ r = m ++ (c0 :: (w' ++ r)) := by simp
    rw [heq]
    unfold matchCombined
    rw [hstep]
    simp [hc0, hdrop]

/-! ## Claim C8 -/

/-- C8: `stripListPrefix` removes at most one leading marker:
`"• • Item"` becomes `"• Item"` and `"1. 2. Item"` becomes `"2. Item"`;
in general, a string that begins with a marker, its required whitespace, and
then any remainder that does not itself begin with whitespace (in
particular, a second stacked marker) loses exactly the first marker and its
whitespace, never more. -/
theorem claim_C8 :
    stripListPrefix "• • Item".toList = "• Item".toList ∧
    stripListPrefix "1. 2. Item".toList = "2. Item".toList ∧
    ∀ m w r : List Char, IsMarker m → (∀ c ∈ w, isJsSpace c = true) →
      w ≠ [] → (∀ c ∈ m ++ w ++ r, c.toNat ≠ 160) →
      (∀ c, r.head? = some c → isJsSpace c = false) →
      stripListPrefix (m ++ w ++ r) = r := by
  refine ⟨by decide, by decide, ?_⟩
  intro m w r hm hw hw0 hnb hr
  unfold stripListPrefix
  rw [normalizeNBSP_eq_self hnb]
  unfold replaceCombinedOnce
  rw [matchCombined_marker hm hw hw0 hr]
  rfl

/-- Witness for C8: the general statement applied to the stacked-marker
string `"• • Item"` (marker `•`, one space, remainder `"• Item"`). -/
theorem claim_C8_witness :
    stripListPrefix (['•'] ++ [' '] ++ "• Item".toList) = "• Item".toList :=
  claim_C8.2.2 ['•'] [' '] "• Item".toList (IsMarker.bullet (by decide))
    (by decide) (by decide) (by decide) (by decide)

/-! ## Claim C10 -/

/-- C10: `stripListPrefix` is exactly the single anchored marker removal
applied to the NBSP-normalized input; in particular, an input containing
non-breaking spaces but starting with no marker comes back with its
non-breaking spaces replaced by ordinary spaces, not unchanged
(`"Email: x"` becomes `"Email: x"`). -/
theorem claim_C10 :
    (∀ s : List Char,
      stripListPrefix s = replaceCombinedOnce (normalizeNBSP s)) ∧
    (∀ s : List Char, matchCombined (normalizeNBSP s) = none →
      stripListPrefix s = normalizeNBSP s) ∧
    stripListPrefix "Email: x".toList = "Email: x".toList ∧
    "Email: x".toList ≠ "Email: x".toList := by
  refine ⟨fun s => rfl, ?_, by decide, by decide⟩
  intro s h
  unfold stripListPrefix replaceCombinedOnce
  rw [h]
  rfl

/-- Witness for C10: the no-marker branch applied to the concrete
NBSP-carrying input. -/
theorem claim_C10_witness :
    stripListPrefix "Email: x".toList =
      normalizeNBSP "Email: x".toList :=
  claim_C10.2.1 "Email: x".toList (by decide)

/-! ## Heading policy helper lemmas -/

theorem rank_gt_three_tags {t : String} (h : 3 < headingRank t) :
    t = "h4" ∨ t = "h5" ∨ t = "h6" := by
  unfold headingRank at h
  by_cases h1 : t = "h1"
  · simp [h1] at h
  · by_cases h2 : t = "h2"
    · simp [h1, h2] at h
    · by_cases h3 : t = "h3"
      · simp [h1, h2, h3] at h
      · by_cases h4 : t = "h4"
        · exact Or.inl h4
        · by_cases h5 : t = "h5"
          · exact Or.inr (Or.inl h5)
          · by_cases h6 : t = "h6"
            · exact Or.inr (Or.inr h6)
            · simp [h1, h2, h3, h4, h5, h6] at h

theorem transform_excess {h : HeadingState}
    (hd : shouldNormalizeHeadingTag h.tag = true) :
    headingTransformStep true h =
      some { tag := "h3", format := h.format, indent := h.indent,
             direction := h.direction, children := h.children } := by
  unfold headingTransformStep
  simp [hd]

theorem transform_compliant {e : Bool} {h : HeadingState}
    (hd : shouldNormalizeHeadingTag h.tag = false) :
    headingTransformStep e h = none := by
  unfold headingTransformStep
  cases e <;> simp [hd]

/-! ## Claim C1 -/

/-- C1: every heading node of rank greater than 3 (tag `h4`, `h5` or `h6`),
wherever it sits in the tree, is replaced by the next settle cycle with a
heading of rank exactly 3 at the same position whose children, format mask,
indent level and text direction are identical to the original's (the
editing surface being editable, as it is on every insertion path). -/
theorem claim_C1 (doc : List BlockNode) (i : Nat) (h : HeadingState)
    (hpos : doc[i]? = some (.heading h)) (hrank : 3 < headingRank h.tag) :
    (settleHeadings true doc)[i]? =
      some (.heading { tag := "h3", format := h.format, indent := h.indent,
                       direction := h.direction, children := h.children }) ∧
    headingRank "h3" = 3 := by
  have htag : shouldNormalizeHeadingTag h.tag = true := by
    rcases rank_gt_three_tags hrank with ht | ht | ht <;>
      simp [shouldNormalizeHeadingTag, DISALLOWED_HEADING_TAGS, ht]
  refine ⟨?_, by decide⟩
  unfold settleHeadings
  rw [List.getElem?_map, hpos]
  simp [applyHeadingTransform, transform_excess htag]

/-- Witness for C1: a rank-5 heading with nonempty content, format mask 2,
indent 1 and RTL direction, settled at position 0. -/
theorem claim_C1_witness :
    (settleHeadings true
      [BlockNode.heading ⟨"h5", 2, 1, some Direction.rtl, [⟨"T", 3⟩]⟩])[0]? =
      some (BlockNode.heading ⟨"h3", 2, 1, some Direction.rtl, [⟨"T", 3⟩]⟩) ∧
    headingRank "h3" = 3 :=
  claim_C1 [BlockNode.heading ⟨"h5", 2, 1, some Direction.rtl, [⟨"T", 3⟩]⟩] 0
    ⟨"h5", 2, 1, some Direction.rtl, [⟨"T", 3⟩]⟩ (by rfl) (by decide)

/-! ## Claim C7 -/

/-- C7: with a non-editable (read-only) surface the transform is a no-op on
every heading node — including one whose rank exceeds the ceiling — and a
settle cycle leaves the whole tree unchanged. -/
theorem claim_C7 :
    (∀ h : HeadingState, headingTransformStep false h = none) ∧
    (∀ h : HeadingState, applyHeadingTransform false h = h) ∧
    (∀ doc : List BlockNode, settleHeadings false doc = doc) := by
  have hstep : ∀ h : HeadingState, headingTransformStep false h = none := by
    intro h
    unfold headingTransformStep
    simp
  have happly : ∀ h : HeadingState, applyHeadingTransform false h = h := by
    intro h
    unfold applyHeadingTransform
    rw [hstep h]
    rfl
  refine ⟨hstep, happly, ?_⟩
  intro doc
  unfold settleHeadings
  conv_rhs => rw [← List.map_id doc]
  refine List.map_congr_left ?_
  intro b _
  cases b with
  | heading h => simp [happly h]
  | other p => rfl

/-! ## Claim C9 -/

/-- C9: the transform is idempotent — on a heading whose tag is already
allowed (`h1`–`h3`) it performs no state transition and allocates no node
(the step is `none` and the node is returned unchanged), and running a
settle cycle twice equals running it once. -/
theorem claim_C9 :
    (∀ (e : Bool) (h : HeadingState),
      shouldNormalizeHeadingTag h.tag = false →
        headingTransformStep e h = none ∧ applyHeadingTransform e h = h) ∧
    (∀ (e : Bool) (doc : List BlockNode),
      settleHeadings e (settleHeadings e doc) = settleHeadings e doc) := by
  have hnoop : ∀ (e : Bool) (h : HeadingState),
      shouldNormalizeHeadingTag h.tag = false →
        headingTransformStep e h = none ∧ applyHeadingTransform e h = h := by
    intro e h hd
    refine ⟨transform_compliant hd, ?_⟩
    unfold applyHeadingTransform
    rw [transform_compliant hd]
    rfl
  refine ⟨hnoop, ?_⟩
  intro e doc
  unfold settleHeadings
  rw [List.map_map]
  refine List.map_congr_left ?_
  intro b _
  cases b with
  | heading h =>
    simp only [Function.comp]
    cases e with
    | false =>
      have hfix : applyHeadingTransform false (applyHeadingTransform false h)
          = applyHeadingTransform false h := by
        unfold applyHeadingTransform headingTransformStep
        simp
      simp [hfix]
    | true =>
      by_cases hd : shouldNormalizeHeadingTag h.tag = true
      · have h1 : applyHeadingTransform true h =
            ⟨"h3", h.format, h.indent, h.direction, h.children⟩ := by
          unfold applyHeadingTransform
          rw [transform_excess hd]
          rfl
        have h2 := (hnoop true
          ⟨"h3", h.format, h.indent, h.direction, h.children⟩ (by rfl)).2
        simp [h1, h2]
      · have hd' : shouldNormalizeHeadingTag h.tag = false := by
          cases hq : shouldNormalizeHeadingTag h.tag with
          | true => exact absurd hq hd
          | false => rfl
        have h1 := (hnoop true h hd').2
        simp [h1]
  | other p => rfl

/-- Witness for C9: the no-op branch applied to an allowed `h2` heading. -/
theorem claim_C9_witness :
    headingTransformStep true ⟨"h2", 0, 0, none, []⟩ = none ∧
    applyHeadingTransform true ⟨"h2", 0, 0, none, []⟩ =
      ⟨"h2", 0, 0, none, []⟩ :=
  claim_C9.1 true ⟨"h2", 0, 0, none, []⟩ (by decide)

/-! ## Dispatcher helper lemmas -/

theorem bool_tf_ne : ¬ (true = false) := fun hx => Bool.noConfusion hx

theorem bool_ft_ne : ¬ (false = true) := fun hx => Bool.noConfusion hx

theorem ne_true_of_eq_false {b : Bool} (h : b = false) : ¬ b = true := by
  rw [h]
  exact bool_ft_ne

theorem ne_false_of_eq_true {b : Bool} (h : b = true) : ¬ b = false := by
  rw [h]
  exact bool_tf_ne

theorem goodTrace_fastPath (eng : HostEngine) (j : Json) :
    GoodTrace (handleLexicalFastPathM eng j) := by
  unfold handleLexicalFastPathM GoodTrace
  cases h1 : jsLengthIsZero (probeSerializedNodes j) with
  | true => rw [if_pos (show (true = true) from rfl)]; decide
  | false =>
    rw [if_neg bool_ft_ne]
    cases h2 : eng.hasSelection with
    | false => rw [if_pos (show (false = false) from rfl)]; decide
    | true =>
      rw [if_neg bool_tf_ne]
      cases h3 : eng.genFromSerialized (probeSerializedNodes j) with
      | none => decide
      | some n =>
        cases n with
        | zero => decide
        | succ k => exact ⟨by simp, by simp, by simp, by simp⟩

theorem goodTrace_htmlPath (eng : HostEngine) (html : List Char) :
    GoodTrace (handleHtmlPasteM eng html) := by
  unfold handleHtmlPasteM GoodTrace
  cases h1 : exceedsSizeLimit html with
  | true => rw [if_pos (show (true = true) from rfl)]; decide
  | false =>
    rw [if_neg bool_ft_ne]
    by_cases h2 : MAX_SANITIZATION_TIME_MS < eng.sanitizeMs
    · rw [if_pos h2]; decide
    · rw [if_neg h2]
      cases h3 : hasContent (eng.sanitizeResult html) with
      | false => rw [if_pos (show (false = false) from rfl)]; decide
      | true =>
        rw [if_neg bool_tf_ne]
        cases h4 : eng.hasSelection with
        | false => rw [if_pos (show (false = false) from rfl)]; decide
        | true =>
          rw [if_neg bool_tf_ne]
          cases h5 : eng.genFromDOM (eng.sanitizeResult html) with
          | none => decide
          | some n =>
            cases n with
            | zero => decide
            | succ k => exact ⟨by simp, by simp, by simp, by simp⟩

theorem goodTrace_plaintext (eng : HostEngine) (html plain : List Char) :
    GoodTrace (handlePlaintextFallbackM eng html plain) := by
  unfold handlePlaintextFallbackM GoodTrace
  cases h0 : hasContent (if hasContent plain then plain
      else eng.stripHtml html) with
  | false => rw [if_pos (show (false = false) from rfl)]; decide
  | true =>
    rw [if_neg bool_tf_ne]
    cases h2 : eng.hasSelection with
    | false => rw [if_pos (show (false = false) from rfl)]; decide
    | true => rw [if_neg bool_tf_ne]; decide

theorem goodTrace_htmlStep (eng : HostEngine) (html : List Char) :
    GoodTrace (if hasContent html then handleHtmlPasteM eng html
      else { handled := false, updates := 0, inserts := 0,
             sanitizerRuns := 0, threw := false }) := by
  cases h : hasContent html with
  | true =>
    rw [if_pos (show (true = true) from rfl)]
    exact goodTrace_htmlPath eng html
  | false =>
    rw [if_neg bool_ft_ne]
    unfold GoodTrace
    decide

/-! ## Claim C2 -/

/-- C2: every dispatcher path keeps all node insertion inside at most one
`editor.update` transaction — a successful paste is exactly one inserting
transaction (hence one undo-stack entry when the host engine commits it,
with transform-triggered normalizations folded into the same commit), and a
rejected or failed paste inserts nothing. -/
theorem claim_C2 :
    (∀ (eng : HostEngine) (evt : PasteEvent),
      GoodTrace (handleSmartPasteM eng evt)) ∧
    (∀ (eng : HostEngine) (html plain : List Char),
      GoodTrace (handlePlaintextFallbackM eng html plain)) := by
  refine ⟨?_, goodTrace_plaintext⟩
  intro eng evt
  unfold handleSmartPasteM
  cases h1 : eng.editable with
  | false =>
    rw [if_pos (show (false = false) from rfl)]
    unfold GoodTrace
    decide
  | true =>
    rw [if_neg bool_tf_ne]
    cases h2 : evt.hasClipboard with
    | false =>
      rw [if_pos (show (false = false) from rfl)]
      unfold GoodTrace
      decide
    | true =>
      rw [if_neg bool_tf_ne]
      cases h3 : evt.lex with
      | parsed j => exact goodTrace_fastPath eng j
      | absent => exact goodTrace_htmlStep eng evt.html
      | invalidJson => exact goodTrace_htmlStep eng evt.html

/-- Witness for C2: a successful small markup paste on a nominal engine
yields exactly one transaction and one insertion. -/
theorem claim_C2_witness :
    (handleSmartPasteM nominalEngine htmlOnlyEvent).handled = true ∧
    (handleSmartPasteM nominalEngine htmlOnlyEvent).updates = 1 ∧
    (handleSmartPasteM nominalEngine htmlOnlyEvent).inserts = 1 :=
  ⟨rfl, ((claim_C2.1 nominalEngine htmlOnlyEvent).2.2.1 rfl).1,
    ((claim_C2.1 nominalEngine htmlOnlyEvent).2.2.1 rfl).2⟩

/-! ## Claim C5 -/

/-- C5 (code bug evidence): on an oversized markup paste the sanitizer is
indeed never invoked, but the plaintext fallback never runs either — the
call `handlePlaintextFallback(editor, htmlContent, clipboardData)`
dereferences the out-of-scope identifier `clipboardData`, so the size-guard
branch raises a `ReferenceError`, the catch-all in `handleSmartPaste`
swallows it, and the handler returns `false` with zero transactions,
deferring to the host's default paste instead of inserting plain text. -/
theorem claim_C5 (eng : HostEngine) (evt : PasteEvent)
    (he : eng.editable = true) (hc : evt.hasClipboard = true)
    (hl : evt.lex = LexSlot.absent) (hh : hasContent evt.html = true)
    (hs : exceedsSizeLimit evt.html = true) :
    handleSmartPasteM eng evt =
      { handled := false, updates := 0, inserts := 0, sanitizerRuns := 0,
        threw := true } := by
  unfold handleSmartPasteM
  rw [if_neg (ne_false_of_eq_true he), if_neg (ne_false_of_eq_true hc), hl]
  rw [show (match LexSlot.absent with
    | LexSlot.parsed j => handleLexicalFastPathM eng j
    | _ => if hasContent evt.html then handleHtmlPasteM eng evt.html
        else { handled := false, updates := 0, inserts := 0,
               sanitizerRuns := 0, threw := false }) =
    (if hasContent evt.html then handleHtmlPasteM eng evt.html
        else { handled := false, updates := 0, inserts := 0,
               sanitizerRuns := 0, threw := false }) from rfl]
  rw [if_pos hh]
  unfold handleHtmlPasteM
  rw [if_pos hs]

theorem blobSize_replicate_a (n : Nat) :
    blobSize (List.replicate n 'a') = n := by
  induction n with
  | zero => rfl
  | succ k ih =>
    rw [List.replicate_succ]
    unfold blobSize at ih ⊢
    simp only [List.map_cons, List.sum_cons, ih]
    have h1 : charUtf8Bytes 'a' = 1 := rfl
    rw [h1]
    omega

theorem oversized_html_exceeds :
    exceedsSizeLimit oversizedEvent.html = true := by
  unfold exceedsSizeLimit oversizedEvent
  rw [blobSize_replicate_a]
  decide

theorem oversized_html_hasContent :
    hasContent oversizedEvent.html = true := by
  unfold oversizedEvent hasContent
  rw [show MAX_PASTE_SIZE + 1 = 512000 + 1 from rfl, List.replicate_succ,
    List.any_cons]
  rw [show (!isJsSpace 'a') = true from rfl, Bool.true_or]

/-- Witness for C5's theorem: the concrete oversized event (512001 bytes of
markup, plain text available) produces no sanitizer run, no transaction, no
insertion, and a swallowed exception. -/
theorem claim_C5_witness :
    handleSmartPasteM nominalEngine oversizedEvent =
      { handled := false, updates := 0, inserts := 0, sanitizerRuns := 0,
        threw := true } :=
  claim_C5 nominalEngine oversizedEvent rfl rfl rfl
    oversized_html_hasContent oversized_html_exceeds

/-! ## Claim C6 -/

/-- C6 counterexample: a native payload that parses as well-formed JSON but
matches no probed container shape, alongside perfectly usable markup, on a
nominal engine.  The dispatcher returns `false` with the sanitizer never
invoked — the markup path (step 3) is not attempted, although it would have
succeeded — so the claimed fall-through does not happen. -/
theorem claim_C6_counterexample :
    jsLengthIsZero (probeSerializedNodes unknownShapePayload) = true ∧
    hasContent unknownShapeEvent.html = true ∧
    handleSmartPasteM nominalEngine unknownShapeEvent =
      { handled := false, updates := 0, inserts := 0, sanitizerRuns := 0,
        threw := false } ∧
    handleHtmlPasteM nominalEngine unknownShapeEvent.html =
      { handled := true, updates := 1, inserts := 1, sanitizerRuns := 1,
        threw := false } :=
  ⟨rfl, rfl, rfl, rfl⟩

/-- C6 as amended: only a native payload that fails `JSON.parse` falls
through to the markup path; a payload that parses as well-formed JSON but
yields no nodes from any probed container shape makes `handleSmartPaste`
return `false` with no transaction and no sanitizer invocation, deferring
to the host's default handling instead of the markup path. -/
theorem claim_C6 (eng : HostEngine) (evt : PasteEvent) (j : Json)
    (he : eng.editable = true) (hc : evt.hasClipboard = true) :
    (evt.lex = LexSlot.invalidJson → hasContent evt.html = true →
      handleSmartPasteM eng evt = handleHtmlPasteM eng evt.html) ∧
    (evt.lex = LexSlot.parsed j →
      jsLengthIsZero (probeSerializedNodes j) = true →
      handleSmartPasteM eng evt =
        { handled := false, updates := 0, inserts := 0, sanitizerRuns := 0,
          threw := false }) := by
  constructor
  · intro hl hh
    unfold handleSmartPasteM
    rw [if_neg (ne_false_of_eq_true he), if_neg (ne_false_of_eq_true hc), hl]
    rw [show (match LexSlot.invalidJson with
      | LexSlot.parsed j => handleLexicalFastPathM eng j
      | _ => if hasContent evt.html then handleHtmlPasteM eng evt.html
          else { handled := false, updates := 0, inserts := 0,
                 sanitizerRuns := 0, threw := false }) =
      (if hasContent evt.html then handleHtmlPasteM eng evt.html
          else { handled := false, updates := 0, inserts := 0,
                 sanitizerRuns := 0, threw := false }) from rfl]
    rw [if_pos hh]
  · intro hl hz
    unfold handleSmartPasteM
    rw [if_neg (ne_false_of_eq_true he), if_neg (ne_false_of_eq_true hc), hl]
    rw [show (match LexSlot.parsed j with
      | LexSlot.parsed j => handleLexicalFastPathM eng j
      | _ => if hasContent evt.html then handleHtmlPasteM eng evt.html
          else { handled := false, updates := 0, inserts := 0,
                 sanitizerRuns := 0, threw := false }) =
      handleLexicalFastPathM eng j from rfl]
    unfold handleLexicalFastPathM
    rw [if_pos hz]

/-- Witness for the amended C6: the concrete unknown-shape payload event. -/
theorem claim_C6_witness :
    handleSmartPasteM nominalEngine unknownShapeEvent =
      { handled := false, updates := 0, inserts := 0, sanitizerRuns := 0,
        threw := false } :=
  (claim_C6 nominalEngine unknownShapeEvent unknownShapePayload rfl rfl).2
    rfl rfl

/-! ## Sanitizer helper lemmas -/

theorem find?_append_none {α : Type} (p : α → Bool) {l₁ : List α}
    (l₂ : List α) (h : ∀ a ∈ l₁, p a = false) :
    (l₁ ++ l₂).find? p = l₂.find? p := by
  induction l₁ with
  | nil => rfl
  | cons a t ih =>
    have ha := h a (by simp)
    rw [List.cons_append, List.find?_cons_of_neg _ (by simp [ha])]
    exact ih fun x hx => h x (by simp [hx])

theorem lookupAttr_append_skip {l₁ l₂ : List (String × List Char)}
    {n : String} (h : ∀ a ∈ l₁, (a.1 == n) = false) :
    lookupAttr (l₁ ++ l₂) n = lookupAttr l₂ n := by
  unfold lookupAttr
  rw [find?_append_none _ l₂ h]

theorem afterHook_a_eq (attrs : List (String × List Char)) :
    afterHookAttrs "a" attrs =
      ((((attrs.filter fun a => a.1 ≠ "rel").filter
          fun a => a.1 ≠ "target").filter
          fun a =>
            !(["onclick", "onmouseover", "style", "class", "id"].contains
              a.1)).filter
          fun a =>
            !(startsWithStr "data-" a.1.toList ||
              startsWithStr "on" a.1.toList)) ++
        [("rel", FORCED_REL), ("target", "_blank".toList)] := by
  unfold afterHookAttrs setAttrModel
  rw [if_pos rfl]
  simp only [List.filter_append]
  rw [show (List.filter (fun a => a.1 ≠ "target")
      [(("rel" : String), FORCED_REL)] = [(("rel" : String), FORCED_REL)])
    from by decide]
  rw [show (List.filter
      (fun a =>
        !(["onclick", "onmouseover", "style", "class", "id"].contains a.1))
      [(("rel" : String), FORCED_REL)] = [(("rel" : String), FORCED_REL)])
    from by decide]
  rw [show (List.filter
      (fun a =>
        !(["onclick", "onmouseover", "style", "class", "id"].contains a.1))
      [(("target" : String), "_blank".toList)] =
      [(("target" : String), "_blank".toList)]) from by decide]
  rw [show (List.filter
      (fun a =>
        !(startsWithStr "data-" a.1.toList || startsWithStr "on" a.1.toList))
      [(("rel" : String), FORCED_REL)] = [(("rel" : String), FORCED_REL)])
    from by decide]
  rw [show (List.filter
      (fun a =>
        !(startsWithStr "data-" a.1.toList || startsWithStr "on" a.1.toList))
      [(("target" : String), "_blank".toList)] =
      [(("target" : String), "_blank".toList)]) from by decide]
  simp

theorem mem_bigFilter_ne_rel {attrs : List (String × List Char)}
    {a : String × List Char}
    (ha : a ∈ (((attrs.filter fun a => a.1 ≠ "rel").filter
        fun a => a.1 ≠ "target").filter
        fun a =>
          !(["onclick", "onmouseover", "style", "class", "id"].contains
            a.1)).filter
        fun a =>
          !(startsWithStr "data-" a.1.toList ||
            startsWithStr "on" a.1.toList)) :
    a.1 ≠ "rel" ∧ a.1 ≠ "target" := by
  have h1 := (List.mem_filter.1 ha).1
  have h2 := (List.mem_filter.1 h1).1
  have h3 := List.mem_filter.1 h2
  have h4 := List.mem_filter.1 h3.1
  refine ⟨?_, ?_⟩
  · simpa using h4.2
  · simpa using h3.2

theorem afterHook_rel (attrs : List (String × List Char)) :
    lookupAttr (afterHookAttrs "a" attrs) "rel" = some FORCED_REL := by
  rw [afterHook_a_eq]
  rw [lookupAttr_append_skip fun a ha => by
    simpa using (mem_bigFilter_ne_rel ha).1]
  rfl

theorem afterHook_target (attrs : List (String × List Char)) :
    lookupAttr (afterHookAttrs "a" attrs) "target" =
      some ("_blank".toList) := by
  rw [afterHook_a_eq]
  rw [lookupAttr_append_skip fun a ha => by
    simpa using (mem_bigFilter_ne_rel ha).2]
  rfl

theorem anchorsForcedList_nil : anchorsForcedList ([] : List Html) = true :=
  rfl

theorem anchorsForcedList_cons (h : Html) (t : List Html) :
    anchorsForcedList (h :: t) =
      (anchorsForced h && anchorsForcedList t) := rfl

theorem anchorsForced_elem (tag : String)
    (attrs : List (String × List Char)) (children : List Html) :
    anchorsForced (.elem tag attrs children) =
      ((if tag = "a" then
          (lookupAttr attrs "rel" == some FORCED_REL &&
           lookupAttr attrs "target" == some ("_blank".toList))
        else true) && anchorsForcedList children) := rfl

theorem anchorsForcedList_append (l₁ l₂ : List Html) :
    anchorsForcedList (l₁ ++ l₂) =
      (anchorsForcedList l₁ && anchorsForcedList l₂) := by
  induction l₁ with
  | nil => simp [anchorsForcedList_nil]
  | cons h t ih =>
    rw [List.cons_append, anchorsForcedList_cons, anchorsForcedList_cons, ih,
      Bool.and_assoc]

mutual

theorem anchorsForced_sanitizeNode (h : Html) :
    anchorsForcedList (sanitizeNode h) = true := by
  cases h with
  | text s => rfl
  | elem tag attrs children =>
    unfold sanitizeNode
    cases hc : ALLOWED_TAGS.contains tag with
    | false => rfl
    | true =>
      rw [if_pos (show (true = true) from rfl)]
      have hrec := anchorsForced_sanitizeList children
      rw [anchorsForcedList_cons, anchorsForcedList_nil, Bool.and_true,
        anchorsForced_elem, hrec, Bool.and_true]
      by_cases ht : tag = "a"
      · subst ht
        rw [if_pos rfl, afterHook_rel, afterHook_target]
        simp
      · rw [if_neg ht]

theorem anchorsForced_sanitizeList (l : List Html) :
    anchorsForcedList (sanitizeList l) = true := by
  cases l with
  | nil => rfl
  | cons h t =>
    unfold sanitizeList
    rw [anchorsForcedList_append, anchorsForced_sanitizeNode h,
      anchorsForced_sanitizeList t]
    rfl

end

/-! ## Claim C3 -/

/-- C3: sanitizing `<a href="javascript:alert(1)">x</a>` yields markup with
no `href` attribute and no `javascript:` substring, while the forced safe
cross-origin annotations (`rel="noopener noreferrer ugc"`, carrying the
no-opener, no-referrer and restricted-context markers, and the new-context
`target="_blank"`) are present and the text content survives; and on every
input whatsoever, every hyperlink surviving sanitization carries exactly
those forced `rel` and `target` values, overwriting any pre-existing
value. -/
theorem claim_C3 :
    ¬ ("href".toList <:+: sanitizeHTML jsAnchorFragment) ∧
    ¬ ("javascript:".toList <:+: sanitizeHTML jsAnchorFragment) ∧
    ("rel=\"noopener noreferrer ugc\"".toList <:+:
      sanitizeHTML jsAnchorFragment) ∧
    ("target=\"_blank\"".toList <:+: sanitizeHTML jsAnchorFragment) ∧
    ("x".toList <:+: sanitizeHTML jsAnchorFragment) ∧
    (∀ ns : List Html, anchorsForcedList (sanitizeList ns) = true) :=
  ⟨by decide, by decide, by decide, by decide, by decide,
    anchorsForced_sanitizeList⟩

/-! ## No-script-substring toolkit -/

theorem lt_not_mem_escapeChar (c : Char) : '<' ∉ escapeChar c := by
  unfold escapeChar
  by_cases h1 : c = '&'
  · rw [if_pos h1]; decide
  · rw [if_neg h1]
    by_cases h2 : c = '<'
    · rw [if_pos h2]; decide
    · rw [if_neg h2]
      by_cases h3 : c = '>'
      · rw [if_pos h3]; decide
      · rw [if_neg h3]
        by_cases h4 : c = '"'
        · rw [if_pos h4]; decide
        · rw [if_neg h4]
          intro hm
          rcases List.mem_singleton.1 hm with rfl
          exact h2 rfl

theorem lt_not_mem_escapeChars (s : List Char) : '<' ∉ escapeChars s := by
  unfold escapeChars
  intro hm
  rcases List.mem_flatMap.1 hm with ⟨c, _, hc⟩
  exact lt_not_mem_escapeChar c hc

theorem safeLt_of_not_mem {l : List Char} (h : '<' ∉ l) : SafeLt l := by
  intro l₁ l₂ heq
  exfalso
  apply h
  rw [heq]
  exact List.mem_append.2 (Or.inr (by simp))

theorem not_prefix_ext {t : List Char} (h1 : ¬ scriptChars <+: t)
    (h2 : ¬ t <+: scriptChars) (z : List Char) :
    ¬ scriptChars <+: t ++ z ∧ ¬ t ++ z <+: scriptChars := by
  constructor
  · intro hp
    rcases le_total scriptChars.length t.length with hle | hle
    · exact h1 (List.prefix_of_prefix_length_le hp (List.prefix_append t z)
        hle)
    · exact h2 (List.prefix_of_prefix_length_le (List.prefix_append t z) hp
        hle)
  · intro hp
    exact h2 ((List.prefix_append t z).trans hp)

theorem safeLt_append {a b : List Char} (ha : SafeLt a) (hb : SafeLt b) :
    SafeLt (a ++ b) := by
  intro l₁ l₂ heq
  rcases List.append_eq_append_iff.1 heq with ⟨a', hc, hbd⟩ | ⟨c', hac, hd⟩
  · exact hb a' l₂ hbd
  · cases c' with
    | nil =>
      refine hb [] l₂ ?_
      simpa using hd.symm
    | cons c0 c'' =>
      rw [List.cons_append] at hd
      have hd' : c0 = '<' ∧ c'' ++ b = l₂ := by
        have := hd.symm
        simpa using this
      rcases hd' with ⟨rfl, hl₂⟩
      have hsplit := ha l₁ c'' hac
      have := not_prefix_ext hsplit.1 hsplit.2 b
      rw [← hl₂]
      exact this

theorem safeLt_open_tag {t : List Char} (hmem : '<' ∉ t)
    (h1 : ¬ scriptChars <+: t) (h2 : ¬ t <+: scriptChars) :
    SafeLt ('<' :: t) := by
  intro l₁ l₂ heq
  cases l₁ with
  | nil =>
    have ht : t = l₂ := by simpa using heq
    rw [← ht]
    exact ⟨h1, h2⟩
  | cons y l₁' =>
    have h3 : t = l₁' ++ '<' :: l₂ := by
      rw [List.cons_append] at heq
      exact (by simpa using heq : _ ∧ _).2
    exfalso
    apply hmem
    rw [h3]
    exact List.mem_append.2 (Or.inr (by simp))

theorem allowed_tag_facts {t : String} (h : ALLOWED_TAGS.contains t = true) :
    ('<' ∉ t.toList ∧ ¬ t.toList <+: scriptChars ∧
      ¬ scriptChars <+: t.toList) ∧
    ('<' ∉ '/' :: t.toList ∧ ¬ ('/' :: t.toList) <+: scriptChars ∧
      ¬ scriptChars <+: '/' :: t.toList) := by
  have hm : t ∈ ALLOWED_TAGS := by simpa using h
  fin_cases hm <;> exact ⟨⟨by decide, by decide, by decide⟩,
    ⟨by decide, by decide, by decide⟩⟩

theorem allowed_attr_no_lt {n : String}
    (h : ALLOWED_ATTR.contains n = true) : '<' ∉ n.toList := by
  have hm : n ∈ ALLOWED_ATTR := by simpa using h
  fin_cases hm <;> decide

theorem lt_not_mem_serializeAttrs {attrs : List (String × List Char)}
    (h : ∀ a ∈ attrs, ALLOWED_ATTR.contains a.1 = true) :
    '<' ∉ serializeAttrsM attrs := by
  unfold serializeAttrsM
  intro hm
  rcases List.mem_flatMap.1 hm with ⟨a, hal, hc⟩
  simp only [List.append_assoc, List.mem_append, List.mem_singleton,
    List.mem_cons] at hc
  rcases hc with h1 | h1 | h1 | h1 | h1 | h1
  · exact absurd h1 (by decide)
  · exact allowed_attr_no_lt (h a hal) h1
  · exact absurd h1 (by decide)
  · exact absurd h1 (by decide)
  · exact lt_not_mem_escapeChars a.2 h1
  · exact absurd h1 (by decide)

/-! ## Output well-formedness of the sanitizer -/

theorem sanitizeAttrs_names {attrs : List (String × List Char)} :
    ∀ a ∈ sanitizeAttrs attrs, ALLOWED_ATTR.contains a.1 = true := by
  intro a ha
  rcases List.mem_filterMap.1 ha with ⟨b, _, hf⟩
  by_cases h1 : ALLOWED_ATTR.contains b.1 = true
  · have hcond : ¬ ((!(ALLOWED_ATTR.contains b.1)) = true) := by
      rw [h1]
      decide
    rw [if_neg hcond] at hf
    by_cases h2 : b.1 = "href"
    · rw [if_pos h2] at hf
      by_cases h3 : keepHref b.2 = true
      · rw [if_pos h3] at hf
        rcases Option.some.inj hf with rfl
        exact h1
      · rw [if_neg h3] at hf
        exact absurd hf (by simp)
    · rw [if_neg h2] at hf
      rcases Option.some.inj hf with rfl
      exact h1
  · have h1' : (!(ALLOWED_ATTR.contains b.1)) = true := by
      cases hq : ALLOWED_ATTR.contains b.1 with
      | true => exact absurd hq h1
      | false => rfl
    rw [if_pos h1'] at hf
    exact absurd hf (by simp)

theorem afterHook_names {tag : String} {attrs : List (String × List Char)}
    (h : ∀ a ∈ attrs, ALLOWED_ATTR.contains a.1 = true) :
    ∀ a ∈ afterHookAttrs tag attrs, ALLOWED_ATTR.contains a.1 = true := by
  by_cases ht : tag = "a"
  · subst ht
    rw [afterHook_a_eq]
    intro a ha
    rcases List.mem_append.1 ha with h1 | h2
    · have hmem := (List.mem_filter.1 (List.mem_filter.1
        (List.mem_filter.1 (List.mem_filter.1 h1).1).1).1).1
      exact h a hmem
    · rcases List.mem_cons.1 h2 with rfl | h3
      · decide
      · rcases List.mem_singleton.1 h3 with rfl
        decide
  · unfold afterHookAttrs
    rw [if_neg ht]
    intro a ha
    exact h a (List.mem_filter.1 ha).1

theorem outputWfList_nil : outputWfList ([] : List Html) = true := rfl

theorem outputWfList_cons (h : Html) (t : List Html) :
    outputWfList (h :: t) = (outputWf h && outputWfList t) := rfl

theorem outputWf_elem (tag : String) (attrs : List (String × List Char))
    (children : List Html) :
    outputWf (.elem tag attrs children) =
      (ALLOWED_TAGS.contains tag &&
        (attrs.all fun a => ALLOWED_ATTR.contains a.1) &&
        outputWfList children) := rfl

theorem outputWfList_append (l₁ l₂ : List Html) :
    outputWfList (l₁ ++ l₂) = (outputWfList l₁ && outputWfList l₂) := by
  induction l₁ with
  | nil => simp [outputWfList_nil]
  | cons h t ih =>
    rw [List.cons_append, outputWfList_cons, outputWfList_cons, ih,
      Bool.and_assoc]

mutual

theorem outputWf_sanitizeNode (h : Html) :
    outputWfList (sanitizeNode h) = true := by
  cases h with
  | text s => rfl
  | elem tag attrs children =>
    unfold sanitizeNode
    cases hc : ALLOWED_TAGS.contains tag with
    | false => rfl
    | true =>
      rw [if_pos (show (true = true) from rfl)]
      have hrec := outputWf_sanitizeList children
      rw [outputWfList_cons, outputWfList_nil, Bool.and_true,
        outputWf_elem, hrec, Bool.and_true, hc, Bool.true_and]
      exact List.all_eq_true.2 (afterHook_names sanitizeAttrs_names)

theorem outputWf_sanitizeList (l : List Html) :
    outputWfList (sanitizeList l) = true := by
  cases l with
  | nil => rfl
  | cons h t =>
    unfold sanitizeList
    rw [outputWfList_append, outputWf_sanitizeNode h,
      outputWf_sanitizeList t]
    rfl

end

/-! ## Serialization of well-formed output has no script tag -/

theorem safeLt_gt : SafeLt (['>'] : List Char) :=
  safeLt_of_not_mem (by decide)

mutual

theorem safeLt_serializeNode (h : Html) (hwf : outputWf h = true) :
    SafeLt (serializeNode h) := by
  cases h with
  | text s => exact safeLt_of_not_mem (lt_not_mem_escapeChars s)
  | elem tag attrs children =>
    rw [outputWf_elem] at hwf
    simp only [Bool.and_eq_true] at hwf
    rcases hwf with ⟨⟨hc, hattrs⟩, hch⟩
    have hnames : ∀ a ∈ attrs, ALLOWED_ATTR.contains a.1 = true :=
      List.all_eq_true.1 hattrs
    have hattrsafe : SafeLt (serializeAttrsM attrs) :=
      safeLt_of_not_mem (lt_not_mem_serializeAttrs hnames)
    have htf := allowed_tag_facts hc
    have hopen : SafeLt ('<' :: tag.toList) :=
      safeLt_open_tag htf.1.1 htf.1.2.2 htf.1.2.1
    have hslash : SafeLt (['<', '/'] : List Char) :=
      safeLt_open_tag (by decide) (by decide) (by decide)
    have htagsafe : SafeLt tag.toList := safeLt_of_not_mem htf.1.1
    have hrec : SafeLt (serializeHtmlList children) :=
      safeLt_serializeList children hch
    unfold serializeNode
    by_cases hv : VOID_TAGS.contains tag = true
    · rw [if_pos hv]
      exact safeLt_append (safeLt_append hopen hattrsafe) safeLt_gt
    · rw [if_neg hv]
      exact safeLt_append (safeLt_append (safeLt_append (safeLt_append
        (safeLt_append (safeLt_append hopen hattrsafe) safeLt_gt) hrec)
        hslash) htagsafe) safeLt_gt

theorem safeLt_serializeList (l : List Html) (hwf : outputWfList l = true) :
    SafeLt (serializeHtmlList l) := by
  cases l with
  | nil => exact safeLt_of_not_mem (by decide)
  | cons h t =>
    rw [outputWfList_cons, Bool.and_eq_true] at hwf
    unfold serializeHtmlList
    exact safeLt_append (safeLt_serializeNode h hwf.1)
      (safeLt_serializeList t hwf.2)

end

/-! ## Claim C4 -/

/-- C4: for every parsed input fragment — a script tag at any nesting depth
included — the sanitizer's serialized output contains no script-tag
substring; and a disallowed tag is removed together with its entire
subtree, not merely unwrapped (its sanitization yields nothing at all). -/
theorem claim_C4 :
    (∀ ns : List Html, ¬ ("<script".toList <:+: sanitizeHTML ns)) ∧
    (∀ (tag : String) (attrs : List (String × List Char))
      (children : List Html), ALLOWED_TAGS.contains tag = false →
        sanitizeNode (.elem tag attrs children) = []) := by
  constructor
  · intro ns hinf
    have hsafe : SafeLt (sanitizeHTML ns) := by
      unfold sanitizeHTML
      exact safeLt_serializeList (sanitizeList ns) (outputWf_sanitizeList ns)
    obtain ⟨s, t, hst⟩ := hinf
    have hst' : sanitizeHTML ns = s ++ '<' :: (scriptChars ++ t) := by
      rw [← hst]
      simp [scriptChars]
    exact (hsafe s (scriptChars ++ t) hst').1
      (List.prefix_append scriptChars t)
  · intro tag attrs children hc
    unfold sanitizeNode
    rw [if_neg (ne_true_of_eq_false hc)]

/-- Witness for C4: the script element itself is off the allowlist, its
sanitization drops the whole subtree, and a fragment with a script tag
nested inside a paragraph serializes with no script-tag substring. -/
theorem claim_C4_witness :
    ALLOWED_TAGS.contains "script" = false ∧
    sanitizeNode (Html.elem "script" []
      [Html.text "alert(1)".toList]) = [] ∧
    ¬ ("<script".toList <:+: sanitizeHTML
      [Html.elem "p" [] [Html.elem "script" [] [Html.text "x".toList],
        Html.text "ok".toList]]) :=
  ⟨by decide,
    claim_C4.2 "script" [] [Html.text "alert(1)".toList] (by decide),
    claim_C4.1 _⟩

end LexProto
